import Mathlib

/-!
Verification of the log-merge, snapshot-reduction, plan-compilation and
fetch-orchestration logic of `apt-rollback.py` (repository lufte/apt-rollback),
as a shallow embedding in Lean 4.

Modelling conventions:
* A log file is its `splitlines()` result: a `List String` of lines
  (no trailing newlines).  An empty file is `[]`.
* Python `str.split(sep)` / `str.strip()` / `str.replace(' ', '_')` are
  re-implemented character-exactly over `String.data` (`pySplit`, `pyStrip`,
  `replaceSpaces`) so that they reduce in the kernel.
* Python string comparison `<` is Lean's lexicographic `String <`
  (both compare code points left to right).
* The generator `get_actions` is modelled as the list of actions it yields
  together with an `Out`come: normal exhaustion (`fin`), early cutoff
  termination (`stop` — the `return` at the cutoff check), an unhandled
  `ValueError` from tuple unpacking (`errValue`), or the `AssertionError`
  for two log files starting with the same timestamp (`errDup`).
* Filesystem and network effects of `download_package` and `main` are passed
  in as oracles: `fsHas` (os.path.exists), `urlopen`/`urlretrieve` (network,
  `none`/`false` meaning a raised exception), `searchVersion`/`searchPackage`
  (the `re.search(...).group(1)` results on the fetched pages) and `urljoin`.
  The per-unit download failure oracle `fails` abstracts `future.exception()`.
-/

namespace AptRollback

/-- Split a character list at every occurrence of `c`, keeping empty chunks —
the semantics of Python `str.split(c)` with an explicit separator. -/
def splitChar (c : Char) : List Char → List (List Char)
  | [] => [[]]
  | x :: xs =>
    match splitChar c xs with
    | [] => [[]]
    | w :: ws => if x = c then [] :: w :: ws else (x :: w) :: ws

/-- Python `s.split(c)` for a single-character separator. -/
def pySplit (s : String) (c : Char) : List String :=
  (splitChar c s.data).map String.mk

/-- Python `s.strip()`: drop leading and trailing whitespace. -/
def pyStrip (s : String) : String :=
  ⟨((s.data.dropWhile Char.isWhitespace).reverse.dropWhile Char.isWhitespace).reverse⟩

/-- Join strings with a separator (used to model the remainder produced by
Python `split(' ', 3)`, which keeps the tail unsplit). -/
def joinSep (sep : String) : List String → String
  | [] => ""
  | [x] => x
  | x :: y :: xs => x ++ sep ++ joinSep sep (y :: xs)

/-- Lexicographic comparison of character lists by code point — the order
Python uses for `str < str`. Executable mirror of `List.lt` on `Char`. -/
def charLt : List Char → List Char → Bool
  | [], [] => false
  | [], _ :: _ => true
  | _ :: _, [] => false
  | x :: xs, y :: ys =>
    if x < y then true else if y < x then false else charLt xs ys

/-- Python string comparison `a < b` (lexicographic by code point). -/
def strLt (a b : String) : Bool :=
  charLt a.data b.data

/-- Python `s.replace(' ', '_')` (single-character pattern). -/
def replaceSpaces (s : String) : String :=
  ⟨s.data.map fun c => if c = ' ' then '_' else c⟩

/-- Model of `os.path.join(d, f)` for a non-absolute, non-empty `f`:
concatenation, inserting `/` unless `d` already ends with one. -/
def pathJoin (d f : String) : String :=
  if d.data.getLast? = some '/' then d ++ f else d ++ "/" ++ f

/-- One parsed log action, as the dict yielded by `get_actions`
(fields `action`, `package`, `arch`, `fromversion`, `toversion`). -/
structure Action where
  action : String
  package : String
  arch : String
  fromversion : String
  toversion : String
deriving DecidableEq

/-- The snapshot key `(action['package'], action['arch'])`. -/
def keyOf (a : Action) : String × String := (a.package, a.arch)

/-- The four recognized action kinds, the tuple at line 69 of the source. -/
def kinds : List String := ["install", "upgrade", "remove", "purge"]

/-- Python `line.split(' ', 3)` unpacked into four values:
`none` models the `ValueError` when fewer than four fields exist. -/
def split4 (s : String) : Option (String × String × String × String) :=
  match pySplit s ' ' with
  | d :: t :: k :: r :: rs => some (d, t, k, joinSep " " (r :: rs))
  | _ => none

/-- What the body of the per-line loop of `get_actions` (lines 63–78) does
with one line: raise `ValueError` (`err`), `return` ending the whole
generator (`stop`), fall through silently (`skip`), or `yield` an action. -/
inductive LineResult where
  | err
  | stop
  | skip
  | emit (a : Action)
deriving DecidableEq

/-- The per-line logic of `get_actions`: split into
`date time action rest` (ValueError if impossible), end the stream when the
timestamp is older than the cutoff, and for the four recognized kinds unpack
`rest` into `package:arch fromversion toversion` (ValueError on any
mismatch); all other kinds fall through silently. -/
def processLine (cutoff line : String) : LineResult :=
  match split4 (pyStrip line) with
  | none => .err
  | some (d, t, act, rest) =>
    if strLt (d ++ " " ++ t) cutoff then .stop
    else if act ∈ kinds then
      match pySplit rest ' ' with
      | [package_arch, fromv, tov] =>
        match pySplit package_arch ':' with
        | [p, ar] => .emit ⟨act, p, ar, fromv, tov⟩
        | _ => .err
      | _ => .err
    else .skip

/-- How a run of the `get_actions` generator ends: file/stream exhausted
(`fin`), the early `return` at the cutoff (`stop`), an unhandled
`ValueError` (`errValue`), or the duplicate-first-timestamp
`AssertionError` (`errDup`). -/
inductive Out where
  | fin
  | stop
  | errValue
  | errDup
deriving DecidableEq

/-- Run the per-line loop over a list of lines (already in processing order),
collecting the yielded actions and how the loop ended. -/
def runLines (cutoff : String) : List String → List Action × Out
  | [] => ([], .fin)
  | l :: ls =>
    match processLine cutoff l with
    | .err => ([], .errValue)
    | .stop => ([], .stop)
    | .skip => runLines cutoff ls
    | .emit a =>
      let (as, o) := runLines cutoff ls
      (a :: as, o)

/-- Phase 1 of `get_actions`, per file (lines 47–51): read the first line;
an empty file is skipped (`none`), otherwise `split(' ', 2)` must produce
three fields (else `ValueError`) and the timestamp is `date ++ " " ++ time`. -/
def peekTs : List String → Except Out (Option String)
  | [] => .ok none
  | l :: _ =>
    match pySplit (pyStrip l) ' ' with
    | d :: t :: _ :: _ => .ok (some (d ++ " " ++ t))
    | _ => .error .errValue

/-- The first-line timestamp of a file, defaulting to `""` for files that are
empty or whose first line does not parse (only used in hypotheses). -/
def firstTsD (f : List String) : String :=
  match peekTs f with
  | .ok (some t) => t
  | _ => ""

/-- The `bisect_left` insertion of lines 52–54: insert into a list kept in
ascending timestamp order, before any equal element. -/
def insortAsc (p : String × List String) :
    List (String × List String) → List (String × List String)
  | [] => [p]
  | q :: qs => if strLt q.1 p.1 then q :: insortAsc p qs else p :: q :: qs

/-- Phase 1 of `get_actions` over all files (lines 44–57): build the
timestamp-sorted file table, raising `AssertionError` when two files start
with the same timestamp and `ValueError` when a first line cannot be split. -/
def collectFirstsAux (acc : List (String × List String)) :
    List (List String) → Except Out (List (String × List String))
  | [] => .ok acc
  | f :: fs =>
    match peekTs f with
    | .error e => .error e
    | .ok none => collectFirstsAux acc fs
    | .ok (some ts) =>
      if ts ∈ acc.map Prod.fst then .error .errDup
      else collectFirstsAux (insortAsc (ts, f) acc) fs

/-- Phase 2 of `get_actions` (lines 60–79): visit files newest-first, each
file's lines in reverse; a `stop` ends the whole scan, an error aborts it,
a finished file hands over to the next one. -/
def runFiles (cutoff : String) : List (String × List String) → List Action × Out
  | [] => ([], .fin)
  | (_, f) :: rest =>
    match runLines cutoff f.reverse with
    | (as, .fin) =>
      let (bs, o) := runFiles cutoff rest
      (as ++ bs, o)
    | (as, o) => (as, o)

/-- The `get_actions` generator on the discovered log files (each given as
its list of lines): the yielded actions plus how the generator ended. -/
def get_actions (cutoff : String) (files : List (List String)) : List Action × Out :=
  match collectFirstsAux [] files with
  | .error e => ([], e)
  | .ok acc => runFiles cutoff acc.reverse

/-- Python dict assignment `d[keyOf a] = a`: overwrite in place when the key
exists (keeping its position), else append — insertion-ordered like a
Python dict. -/
def dictInsert (d : List ((String × String) × Action)) (a : Action) :
    List ((String × String) × Action) :=
  if keyOf a ∈ d.map Prod.fst then
    d.map fun e => if e.1 = keyOf a then (keyOf a, a) else e
  else d ++ [(keyOf a, a)]

/-- The snapshot dict comprehension of lines 132–136: fold the action stream
into a mapping with last-write-wins semantics. -/
def snapshot (actions : List Action) : List ((String × String) × Action) :=
  actions.foldl dictInsert []

/-- Lookup in the association-list model of a Python dict. -/
def lookupKey (k : String × String) :
    List ((String × String) × Action) → Option Action
  | [] => none
  | e :: es => if e.1 = k then some e.2 else lookupKey k es

/-- Python `del d[k]`. -/
def dictDelete (d : List ((String × String) × Action)) (k : String × String) :
    List ((String × String) × Action) :=
  d.filter fun e => decide (e.1 ≠ k)

def WORKING_DIR : String := "/tmp"

def REPOSITORY_URL : String := "http://snapshot.debian.org"

/-- The run-scoped working directory of lines 142–145. -/
def download_dir (timestamp : String) : String :=
  pathJoin WORKING_DIR (replaceSpaces ("apt-rollback-" ++ timestamp ++ "/"))

/-- The artifact naming convention of line 82. -/
def build_filename (package version arch : String) : String :=
  package ++ "_" ++ version ++ "_" ++ arch ++ ".deb"

/-- Whether a snapshot entry is a download unit that failed: only non-install
targets are submitted for download (line 156), and `fails` abstracts
`future.exception()` on `(package, arch, fromversion)`. -/
def unitFails (fails : String → String → String → Bool) (a : Action) : Bool :=
  decide (a.action ≠ "install") && fails a.package a.arch a.fromversion

/-- The `failed` list of line 160: the snapshot's download units whose
future raised, in snapshot order. -/
def failedList (snap : List ((String × String) × Action))
    (fails : String → String → String → Bool) : List Action :=
  snap.filterMap fun e => if unitFails fails e.2 then some e.2 else none

/-- The reinstall paths of lines 179–185 (`dpkg -i` arguments). -/
def installsOf (timestamp : String)
    (snap : List ((String × String) × Action)) : List String :=
  snap.filterMap fun e =>
    if e.2.action ≠ "install" then
      some (pathJoin (download_dir timestamp)
        (build_filename e.2.package e.2.fromversion e.2.arch))
    else none

/-- The removal identifiers of lines 186–190 (`dpkg -P` arguments). -/
def uninstallsOf (snap : List ((String × String) × Action)) : List String :=
  snap.filterMap fun e =>
    if e.2.action = "install" then some (e.2.package ++ ":" ++ e.2.arch)
    else none

/-- The reinstall side of the plan partition at the rollback-target level:
the snapshot entries whose kind is not `install` (each yields one entry of
`installsOf`). -/
def reinstallTargets (snap : List ((String × String) × Action)) :
    List ((String × String) × Action) :=
  snap.filter fun e => decide (e.2.action ≠ "install")

/-- The remove side of the plan partition at the rollback-target level:
the snapshot entries whose kind is `install` (each yields one entry of
`uninstallsOf`). -/
def removeTargets (snap : List ((String × String) × Action)) :
    List ((String × String) × Action) :=
  snap.filter fun e => decide (e.2.action = "install")

/-- The user-visible terminal outcome of `main` (lines 132–195): a no-op
message with exit 0, the strict-mode blocked report naming the failed
`(package, arch, fromversion)` triples with exit 1, or the `dpkg` sink
invocation with its two directive lists. -/
inductive RunOutcome where
  | nothingToRevert (msg : String)
  | blocked (failed : List (String × String × String))
  | handedOff (installs uninstalls : List String)
deriving DecidableEq

/-- The deletion loop of lines 171–173: remove every failed unit's key from
the snapshot. -/
def droppedSnap (snap : List ((String × String) × Action))
    (fails : String → String → String → Bool) :
    List ((String × String) × Action) :=
  (failedList snap fails).foldl (fun d a => dictDelete d (keyOf a)) snap

/-- The control flow of `main` after the action stream is obtained:
empty-snapshot no-op; strict-mode block when any download failed; deletion
of failed units (`droppedSnap`); post-drop no-op; otherwise the sink
invocation. -/
def mainRun (timestamp : String) (force : Bool)
    (fails : String → String → String → Bool) (actions : List Action) :
    RunOutcome :=
  if snapshot actions = [] then
    .nothingToRevert "No package operations to revert"
  else if failedList (snapshot actions) fails ≠ [] ∧ force = false then
    .blocked ((failedList (snapshot actions) fails).map
      fun a => (a.package, a.arch, a.fromversion))
  else if droppedSnap (snapshot actions) fails = [] then
    .nothingToRevert "No package operations to revert"
  else
    .handedOff (installsOf timestamp (droppedSnap (snapshot actions) fails))
      (uninstallsOf (droppedSnap (snapshot actions) fails))

/-- Terminal state of one download unit (§3 of the spec). -/
inductive FetchResult where
  | alreadyPresent
  | fetched
  | failed
deriving DecidableEq

/-- The `download_package` worker (lines 86–114), with filesystem, network
and regex-search effects passed as oracles; the second component counts
network calls (`urlopen` and `urlretrieve`), and a `none`/`false` oracle
answer models a raised exception, ending the unit as `failed`. -/
def download_package (fsHas : String → Bool) (urlopen : String → Option String)
    (searchVersion : String → String → Option String)
    (searchPackage : String → String → String → Option String)
    (urljoin : String → String → String) (urlretrieve : String → Bool)
    (dir package arch version : String) : FetchResult × Nat :=
  let filename := build_filename package version arch
  if fsHas (pathJoin dir filename) then (.alreadyPresent, 0)
  else
    let url1 := REPOSITORY_URL ++ "/binary/" ++ package ++ "/"
    match urlopen url1 with
    | none => (.failed, 1)
    | some page1 =>
      match searchVersion version page1 with
      | none => (.failed, 1)
      | some link1 =>
        let url2 := urljoin url1 link1
        match urlopen url2 with
        | none => (.failed, 2)
        | some page2 =>
          match searchPackage package arch page2 with
          | none => (.failed, 2)
          | some link2 =>
            if urlretrieve (urljoin url2 link2) then (.fetched, 3)
            else (.failed, 3)

/-! ### Order bridge: the executable comparison agrees with `String <` -/

theorem charLt_iff : ∀ l₁ l₂ : List Char, charLt l₁ l₂ = true ↔ l₁ < l₂ := by
  intro l₁
  induction l₁ with
  | nil =>
    intro l₂
    cases l₂ with
    | nil => exact ⟨fun h => by simp [charLt] at h, fun h => nomatch h⟩
    | cons b bs => simp only [charLt]; exact ⟨fun _ => List.Lex.nil, fun _ => trivial⟩
  | cons a as ih =>
    intro l₂
    cases l₂ with
    | nil => exact ⟨fun h => by simp [charLt] at h, fun h => nomatch h⟩
    | cons b bs =>
      rcases lt_trichotomy a b with hab | heq | hba
      · simp only [charLt, if_pos hab]
        exact ⟨fun _ => List.Lex.rel hab, fun _ => trivial⟩
      · subst heq
        simp only [charLt, if_neg (lt_irrefl a)]
        rw [ih bs]
        constructor
        · exact List.Lex.cons
        · intro h
          cases h with
          | cons h => exact h
          | rel h => exact absurd h (lt_irrefl a)
      · simp only [charLt, if_neg (asymm hba), if_pos hba]
        constructor
        · intro h; exact absurd h (by simp)
        · intro h
          cases h with
          | cons h => exact absurd hba (lt_irrefl _)
          | rel h => exact absurd h (asymm hba)

theorem strLt_iff (a b : String) : strLt a b = true ↔ a < b := by
  rw [String.lt_iff_toList_lt]
  exact charLt_iff a.data b.data

theorem strLt_false_iff (a b : String) : strLt a b = false ↔ b ≤ a := by
  rw [← not_lt, ← strLt_iff]
  cases h : strLt a b <;> simp

/-! ### C8 — already-present short circuit of the fetch worker -/

/-- C8: when a file named exactly `{package}_{version}_{arch}.deb` already
exists in the working directory, `download_package` performs zero network
calls and terminates in the `AlreadyPresent` state, which makes repeated
invocations against the same working directory idempotent for that unit. -/
theorem c8_already_present_short_circuit
    (fsHas : String → Bool) (urlopen : String → Option String)
    (searchVersion : String → String → Option String)
    (searchPackage : String → String → String → Option String)
    (urljoin : String → String → String) (urlretrieve : String → Bool)
    (dir package arch version : String)
    (h : fsHas (pathJoin dir (build_filename package version arch)) = true) :
    download_package fsHas urlopen searchVersion searchPackage urljoin
      urlretrieve dir package arch version = (.alreadyPresent, 0) := by
  unfold download_package
  simp [h]

theorem c8_witness :
    download_package (fun s => decide (s = "/d/package_version_arch.deb"))
      (fun _ => none) (fun _ _ => none) (fun _ _ _ => none) (fun _ s => s)
      (fun _ => false) "/d" "package" "arch" "version" =
      (.alreadyPresent, 0) :=
  c8_already_present_short_circuit _ _ _ _ _ _ _ _ _ _ (by decide)

/-! ### C10 — recognized kind with malformed remainder is fatal -/

/-- C10: a log line whose kind is one of the four recognized values but whose
remainder does not consist of exactly three space-separated tokens (first
conjunct), or whose package field does not contain exactly one `:` separator
(second conjunct), makes the per-line logic of `get_actions` raise an
unhandled `ValueError` (`err`), and the whole merge aborts with `errValue`
instead of skipping the line. -/
theorem c10_recognized_kind_bad_rest_raises :
    processLine "2000-01-01 00:00:00" "2017-01-01 00:00:00 install pkg 1" =
      .err
    ∧ processLine "2000-01-01 00:00:00"
        "2017-01-01 00:00:00 install pkgnocolon 1 2" = .err
    ∧ get_actions "2000-01-01 00:00:00"
        [["2017-01-01 00:00:00 install pkg 1"]] = ([], .errValue)
    ∧ get_actions "2000-01-01 00:00:00"
        [["2017-01-01 00:00:00 install pkgnocolon 1 2"]] = ([], .errValue) := by
  decide

/-! ### C3 — lines that fail the four-field split -/

/-- C3 counterexample: a file whose newest line cannot be split into the
four-field `date time kind rest` shape is not skipped — the merge aborts
with an unhandled `ValueError` (`errValue`) and never yields the valid older
line of the same file (the claimed skip-and-continue behaviour would have
produced the second outcome). -/
theorem c3_counterexample :
    get_actions "2000-01-01 00:00:00"
      [["2017-01-01 00:00:00 upgrade pkg:arch 1 2", "short line"]] =
      ([], .errValue)
    ∧ get_actions "2000-01-01 00:00:00"
      [["2017-01-01 00:00:00 upgrade pkg:arch 1 2", "short line"]] ≠
      ([⟨"upgrade", "pkg", "arch", "1", "2"⟩], .fin) := by
  decide

/-- C3 amended: a log line that cannot be split into the four-field
`date time kind rest` shape is fatal, not skipped: the per-line logic raises
`ValueError` and the stream aborts there, never reaching the remaining lines
of the same file. -/
theorem c3_short_line_aborts_merge (cutoff l : String) (ls : List String)
    (h : split4 (pyStrip l) = none) :
    processLine cutoff l = .err
    ∧ runLines cutoff (l :: ls) = ([], .errValue) := by
  have hp : processLine cutoff l = .err := by unfold processLine; rw [h]
  refine ⟨hp, ?_⟩
  simp [runLines, hp]

theorem c3_witness :
    processLine "2000-01-01 00:00:00" "short line" = .err
    ∧ runLines "2000-01-01 00:00:00"
        ["short line", "2017-01-01 00:00:00 upgrade pkg:arch 1 2"] =
        ([], .errValue) :=
  c3_short_line_aborts_merge "2000-01-01 00:00:00" "short line"
    ["2017-01-01 00:00:00 upgrade pkg:arch 1 2"] (by decide)

/-! ### C4 — the two no-op outcomes -/

/-- C4 counterexample: the empty-snapshot no-op and the
all-failed-units-dropped permissive-mode no-op produce the identical
user-visible outcome — `nothingToRevert` with the very same message — even
though the second run had a nonempty snapshot (third conjunct), so the two
no-op cases are collapsed into one message, contrary to the claim. -/
theorem c4_counterexample :
    mainRun "t" false (fun _ _ _ => false) [] =
      .nothingToRevert "No package operations to revert"
    ∧ mainRun "t" true (fun _ _ _ => true) [⟨"upgrade", "p1", "a1", "1", "2"⟩] =
      .nothingToRevert "No package operations to revert"
    ∧ snapshot [⟨"upgrade", "p1", "a1", "1", "2"⟩] ≠ [] := by
  decide

/-- C4 amended: the two no-op cases are not user-visibly distinct — every
`nothingToRevert` outcome of a run, whether from the original empty snapshot
or from dropping all failed units in permissive mode, carries the one
message `"No package operations to revert"` (with exit code 0). -/
theorem c4_noop_message_unique (timestamp : String) (force : Bool)
    (fails : String → String → String → Bool) (actions : List Action)
    (msg : String)
    (h : mainRun timestamp force fails actions = .nothingToRevert msg) :
    msg = "No package operations to revert" := by
  unfold mainRun at h
  split_ifs at h <;> simp_all

theorem c4_witness : "No package operations to revert" =
    "No package operations to revert" :=
  c4_noop_message_unique "t" false (fun _ _ _ => false) [] _ (by decide)



/-! ### Snapshot dictionary invariants -/

theorem dictInsert_key_eq {d : List ((String × String) × Action)} {a : Action}
    (h : ∀ e ∈ d, e.1 = keyOf e.2) : ∀ e ∈ dictInsert d a, e.1 = keyOf e.2 := by
  intro e he
  unfold dictInsert at he
  split_ifs at he
  · rcases List.mem_map.mp he with ⟨x, hx, hge⟩
    by_cases hk : x.1 = keyOf a
    · simp only [if_pos hk] at hge
      subst hge; rfl
    · simp only [if_neg hk] at hge
      subst hge; exact h x hx
  · rcases List.mem_append.mp he with hx | hx
    · exact h e hx
    · simp at hx; subst hx; rfl

theorem dictInsert_keys {d : List ((String × String) × Action)} {a : Action} :
    (dictInsert d a).map Prod.fst = d.map Prod.fst
    ∨ (dictInsert d a).map Prod.fst = d.map Prod.fst ++ [keyOf a]
      ∧ keyOf a ∉ d.map Prod.fst := by
  unfold dictInsert
  split_ifs with hmem
  · left
    rw [List.map_map]
    apply List.map_congr_left
    intro e _
    by_cases hk : e.1 = keyOf a
    · simp [if_pos hk, hk]
    · simp [if_neg hk]
  · right
    simp [hmem]

theorem dictInsert_keys_nodup {d : List ((String × String) × Action)}
    {a : Action} (h : (d.map Prod.fst).Nodup) :
    ((dictInsert d a).map Prod.fst).Nodup := by
  rcases dictInsert_keys (d := d) (a := a) with heq | ⟨heq, hnm⟩
  · rw [heq]; exact h
  · rw [heq]
    rw [List.nodup_append]
    exact ⟨h, List.nodup_singleton _, by simpa using hnm⟩

theorem snapshot_inv (actions : List Action) :
    (∀ e ∈ snapshot actions, e.1 = keyOf e.2)
    ∧ ((snapshot actions).map Prod.fst).Nodup := by
  unfold snapshot
  suffices h : ∀ (d : List ((String × String) × Action)),
      (∀ e ∈ d, e.1 = keyOf e.2) → (d.map Prod.fst).Nodup →
      (∀ e ∈ actions.foldl dictInsert d, e.1 = keyOf e.2)
      ∧ ((actions.foldl dictInsert d).map Prod.fst).Nodup by
    exact h [] (by simp) (by simp)
  induction actions with
  | nil => intro d h1 h2; exact ⟨h1, h2⟩
  | cons a as ih =>
    intro d h1 h2
    exact ih (dictInsert d a) (dictInsert_key_eq h1) (dictInsert_keys_nodup h2)

theorem filterMap_if_eq_map_filter {β : Type} (q : ((String × String) × Action) → Prop)
    [DecidablePred q] (f : ((String × String) × Action) → β) :
    ∀ l : List ((String × String) × Action),
      (l.filterMap fun e => if q e then some (f e) else none) =
        (l.filter fun e => decide (q e)).map f := by
  intro l
  induction l with
  | nil => rfl
  | cons e es ih =>
    by_cases hq : q e
    · simp [List.filterMap_cons, List.filter_cons, hq, ih]
    · simp [List.filterMap_cons, List.filter_cons, hq, ih]

/-! ### C6 — plan compilation partitions the snapshot by kind -/

/-- C6: plan compilation partitions the final snapshot by kind. An entry
whose kind is `install` is in the remove side and not the reinstall side; an
entry of any other kind is in the reinstall side and not the remove side;
both sides are duplicate-free (so each target contributes exactly one
entry), the two sides exactly exhaust the snapshot, each target yields
exactly one string entry of the corresponding directive list
(`uninstallsOf`/`installsOf`), and the two sides are disjoint. -/
theorem c6_plan_partition (snap : List ((String × String) × Action))
    (hnd : (snap.map Prod.fst).Nodup)
    (e : (String × String) × Action) (he : e ∈ snap) :
    (e.2.action = "install" →
      e ∈ removeTargets snap ∧ e ∉ reinstallTargets snap)
    ∧ (e.2.action ≠ "install" →
      e ∈ reinstallTargets snap ∧ e ∉ removeTargets snap)
    ∧ (removeTargets snap).Nodup
    ∧ (reinstallTargets snap).Nodup
    ∧ (reinstallTargets snap).length + (removeTargets snap).length = snap.length
    ∧ (∀ timestamp, (installsOf timestamp snap).length =
        (reinstallTargets snap).length)
    ∧ (uninstallsOf snap).length = (removeTargets snap).length
    ∧ ∀ x ∈ reinstallTargets snap, x ∉ removeTargets snap := by
  have hsnodup : snap.Nodup := List.Nodup.of_map Prod.fst hnd
  refine ⟨?_, ?_, ?_, ?_, ?_, ?_, ?_, ?_⟩
  · intro hinst
    constructor
    · exact List.mem_filter.mpr ⟨he, by simp [hinst]⟩
    · intro hmem
      have := (List.mem_filter.mp hmem).2
      simp [hinst] at this
  · intro hninst
    constructor
    · exact List.mem_filter.mpr ⟨he, by simp [hninst]⟩
    · intro hmem
      have := (List.mem_filter.mp hmem).2
      simp at this
      exact hninst this
  · exact List.Nodup.filter _ hsnodup
  · exact List.Nodup.filter _ hsnodup
  · have := List.length_eq_length_filter_add
      (l := snap) (fun e => decide (e.2.action = "install"))
    unfold reinstallTargets removeTargets
    simp only [ne_eq, decide_not]
    omega
  · intro timestamp
    unfold installsOf reinstallTargets
    rw [filterMap_if_eq_map_filter]
    simp
  · unfold uninstallsOf removeTargets
    rw [filterMap_if_eq_map_filter]
    simp
  · intro x hx hmem
    have h1 := (List.mem_filter.mp hx).2
    have h2 := (List.mem_filter.mp hmem).2
    simp at h1 h2
    exact h1 h2

theorem c6_witness :
    (("p1", "a1"), Action.mk "install" "p1" "a1" "<none>" "1") ∈
      removeTargets (snapshot [⟨"install", "p1", "a1", "<none>", "1"⟩,
        ⟨"upgrade", "p2", "a1", "1", "2"⟩])
    ∧ (("p1", "a1"), Action.mk "install" "p1" "a1" "<none>" "1") ∉
      reinstallTargets (snapshot [⟨"install", "p1", "a1", "<none>", "1"⟩,
        ⟨"upgrade", "p2", "a1", "1", "2"⟩]) :=
  (c6_plan_partition _ (by decide) _ (by decide)).1 (by decide)

/-! ### Last-write-wins lookup of the snapshot fold -/

def optOr (x y : Option Action) : Option Action :=
  match x with
  | some a => some a
  | none => y

theorem lookupKey_replace_ne {a : Action} {k : String × String}
    (hk : keyOf a ≠ k) :
    ∀ es : List ((String × String) × Action),
      lookupKey k (es.map fun e => if e.1 = keyOf a then (keyOf a, a) else e) =
        lookupKey k es := by
  intro es
  induction es with
  | nil => rfl
  | cons e es ih =>
    by_cases he : e.1 = keyOf a
    · simp only [List.map_cons, if_pos he, lookupKey, if_neg hk, ih,
        if_neg (he ▸ hk : ¬ e.1 = k)]
    · simp only [List.map_cons, if_neg he, lookupKey, ih]

theorem lookupKey_replace {a : Action} {k : String × String} :
    ∀ d : List ((String × String) × Action), keyOf a ∈ d.map Prod.fst →
      lookupKey k (d.map fun e => if e.1 = keyOf a then (keyOf a, a) else e) =
        if keyOf a = k then some a else lookupKey k d := by
  intro d
  induction d with
  | nil => intro h; simp at h
  | cons e es ih =>
    intro hmem
    by_cases he : e.1 = keyOf a
    · by_cases hk : keyOf a = k
      · simp only [List.map_cons, if_pos he, lookupKey, if_pos hk]
      · simp only [List.map_cons, if_pos he, lookupKey, if_neg hk,
          if_neg (he ▸ hk : ¬ e.1 = k), lookupKey_replace_ne hk]
    · have hmem' : keyOf a ∈ es.map Prod.fst := by
        rcases List.mem_cons.mp hmem with h | h
        · exact absurd h.symm he
        · exact h
      by_cases hk : keyOf a = k
      · have hek : ¬ e.1 = k := fun hc => he (hc.trans hk.symm)
        simp only [List.map_cons, if_neg he, lookupKey, if_neg hek, ih hmem',
          if_pos hk]
      · simp only [List.map_cons, if_neg he, lookupKey, ih hmem', if_neg hk]

theorem lookupKey_append_single {a : Action} {k : String × String} :
    ∀ d : List ((String × String) × Action), keyOf a ∉ d.map Prod.fst →
      lookupKey k (d ++ [(keyOf a, a)]) =
        if keyOf a = k then some a else lookupKey k d := by
  intro d
  induction d with
  | nil => intro _; rfl
  | cons e es ih =>
    intro hnm
    have he : ¬ e.1 = keyOf a := by
      intro hc; exact hnm (by simp [hc.symm])
    have hnm' : keyOf a ∉ es.map Prod.fst := by
      intro hc; exact hnm (by simp [hc])
    by_cases hek : e.1 = k
    · have hk : ¬ keyOf a = k := fun hc => he (hek.trans hc.symm)
      simp only [List.cons_append, lookupKey, if_pos hek, if_neg hk]
    · simp only [List.cons_append, lookupKey, if_neg hek]
      exact ih hnm'

theorem lookupKey_dictInsert (d : List ((String × String) × Action))
    (a : Action) (k : String × String) :
    lookupKey k (dictInsert d a) =
      if keyOf a = k then some a else lookupKey k d := by
  by_cases hmem : keyOf a ∈ d.map Prod.fst
  · rw [dictInsert, if_pos hmem]
    exact lookupKey_replace d hmem
  · rw [dictInsert, if_neg hmem]
    exact lookupKey_append_single d hmem

theorem optOr_getLast_cons (a : Action) (l : List Action) :
    (a :: l).getLast? = optOr l.getLast? (some a) := by
  cases l with
  | nil => rfl
  | cons b bs =>
    rw [List.getLast?_cons_cons]
    cases h : (b :: bs).getLast? with
    | some x => rfl
    | none => exact absurd (List.getLast?_eq_none_iff.mp h) (by simp)

theorem lookupKey_foldl (k : String × String) :
    ∀ (actions : List Action) (d : List ((String × String) × Action)),
      lookupKey k (actions.foldl dictInsert d) =
        optOr ((actions.filter fun x => decide (keyOf x = k)).getLast?)
          (lookupKey k d) := by
  intro actions
  induction actions with
  | nil => intro d; rfl
  | cons a as ih =>
    intro d
    rw [List.foldl_cons, ih (dictInsert d a), lookupKey_dictInsert]
    by_cases hk : keyOf a = k
    · rw [if_pos hk]
      rw [List.filter_cons_of_pos (by simp [hk]), optOr_getLast_cons]
      cases (as.filter fun x => decide (keyOf x = k)).getLast? <;> rfl
    · rw [if_neg hk, List.filter_cons_of_neg (by simp [hk])]

theorem lookupKey_snapshot (actions : List Action) (k : String × String) :
    lookupKey k (snapshot actions) =
      (actions.filter fun x => decide (keyOf x = k)).getLast? := by
  rw [snapshot, lookupKey_foldl]
  cases (actions.filter fun x => decide (keyOf x = k)).getLast? <;> rfl

theorem getLast_of_pairwise {α : Type} {r : α → α → Prop} :
    ∀ (l : List α) (x : α), l.getLast? = some x → l.Pairwise r →
      ∀ y ∈ l, y = x ∨ r y x := by
  intro l
  induction l with
  | nil => intro x h; simp at h
  | cons a as ih =>
    intro x hlast hp y hy
    rcases List.pairwise_cons.mp hp with ⟨hra, hpas⟩
    cases as with
    | nil =>
      simp at hlast
      rcases List.mem_singleton.mp hy with rfl
      exact Or.inl hlast
    | cons b bs =>
      rw [List.getLast?_cons_cons] at hlast
      rcases List.mem_cons.mp hy with rfl | hy2
      · right
        exact hra x (List.mem_of_mem_getLast? hlast)
      · exact ih x hlast hpas y hy2

/-! ### C1 — the snapshot fold keeps the oldest in-window action per key -/

/-- C1: for every bounded reverse-chronological (newest-first,
timestamp-annotated) action stream and every key appearing in it, the
last-write-wins snapshot fold maps the key to the oldest action for that
key in the window: there is a stream element holding the key whose action is
the final snapshot value and whose timestamp is less than or equal to that
of every stream element with the same key (`strLt q.1 p.1 = false` says
`p.1 ≤ q.1` in Python string order). -/
theorem c1_snapshot_maps_key_to_oldest (stream : List (String × Action))
    (k : String × String)
    (hsorted : stream.Pairwise fun p q => strLt p.1 q.1 = false)
    (hk : k ∈ stream.map fun p => keyOf p.2) :
    ∃ p ∈ stream, keyOf p.2 = k
      ∧ lookupKey k (snapshot (stream.map Prod.snd)) = some p.2
      ∧ ∀ q ∈ stream, keyOf q.2 = k → strLt q.1 p.1 = false := by
  have hfil : (stream.map Prod.snd).filter (fun x => decide (keyOf x = k)) =
      (stream.filter fun pq => decide (keyOf pq.2 = k)).map Prod.snd :=
    List.filter_map Prod.snd stream
  have hne : stream.filter (fun pq => decide (keyOf pq.2 = k)) ≠ [] := by
    rcases List.mem_map.mp hk with ⟨p, hp, hpk⟩
    intro hcon
    have : p ∈ stream.filter fun pq => decide (keyOf pq.2 = k) :=
      List.mem_filter.mpr ⟨hp, by simp [hpk]⟩
    rw [hcon] at this
    simp at this
  obtain ⟨p, hplast⟩ : ∃ p,
      (stream.filter fun pq => decide (keyOf pq.2 = k)).getLast? = some p := by
    cases h : (stream.filter fun pq => decide (keyOf pq.2 = k)).getLast? with
    | some p => exact ⟨p, rfl⟩
    | none => exact absurd (List.getLast?_eq_none_iff.mp h) hne
  have hpmem : p ∈ stream.filter fun pq => decide (keyOf pq.2 = k) :=
    List.mem_of_mem_getLast? hplast
  have hpstream : p ∈ stream := (List.mem_filter.mp hpmem).1
  have hpkey : keyOf p.2 = k := by
    have := (List.mem_filter.mp hpmem).2
    simpa using this
  refine ⟨p, hpstream, hpkey, ?_, ?_⟩
  · rw [lookupKey_snapshot, hfil, List.getLast?_map, hplast]
    rfl
  · intro q hq hqk
    have hqmem : q ∈ stream.filter fun pq => decide (keyOf pq.2 = k) :=
      List.mem_filter.mpr ⟨hq, by simp [hqk]⟩
    have hpair : (stream.filter fun pq => decide (keyOf pq.2 = k)).Pairwise
        fun p q => strLt p.1 q.1 = false :=
      hsorted.sublist (List.filter_sublist stream)
    rcases getLast_of_pairwise _ p hplast hpair q hqmem with rfl | hr
    · rw [strLt_false_iff]
    · exact hr

theorem c1_witness :
    ∃ p ∈ [(("2017-01-01 00:00:02", Action.mk "upgrade" "pkg" "arch" "2" "3")),
           (("2017-01-01 00:00:01", Action.mk "upgrade" "pkg" "arch" "1" "2"))],
      keyOf p.2 = ("pkg", "arch")
      ∧ lookupKey ("pkg", "arch")
          (snapshot ([(("2017-01-01 00:00:02",
              Action.mk "upgrade" "pkg" "arch" "2" "3")),
            (("2017-01-01 00:00:01",
              Action.mk "upgrade" "pkg" "arch" "1" "2"))].map Prod.snd)) =
          some p.2
      ∧ ∀ q ∈ [(("2017-01-01 00:00:02", Action.mk "upgrade" "pkg" "arch" "2" "3")),
               (("2017-01-01 00:00:01", Action.mk "upgrade" "pkg" "arch" "1" "2"))],
          keyOf q.2 = ("pkg", "arch") → strLt q.1 p.1 = false :=
  c1_snapshot_maps_key_to_oldest _ _ (by decide) (by decide)

/-! ### C9 — only the four recognized kinds are ever materialized -/

theorem processLine_emit_kind {cutoff l : String} {a : Action}
    (h : processLine cutoff l = .emit a) : a.action ∈ kinds := by
  unfold processLine at h
  rcases hs : split4 (pyStrip l) with _ | ⟨d, t, act, rest⟩ <;> rw [hs] at h
  · exact (nomatch h)
  · dsimp only at h
    split_ifs at h with h1 h2
    split at h
    · split at h
      · rw [LineResult.emit.injEq] at h
        rw [← h]
        exact h2
      · exact (nomatch h)
    · exact (nomatch h)

theorem runLines_mem_kinds {cutoff : String} :
    ∀ (ls : List String) (a : Action),
      a ∈ (runLines cutoff ls).1 → a.action ∈ kinds := by
  intro ls
  induction ls with
  | nil => intro a h; simp [runLines] at h
  | cons l ls ih =>
    intro a h
    cases hp : processLine cutoff l with
    | err => rw [runLines, hp] at h; simp at h
    | stop => rw [runLines, hp] at h; simp at h
    | skip => rw [runLines, hp] at h; exact ih a h
    | emit b =>
      cases hrl : runLines cutoff ls with
      | mk as o =>
        rw [runLines, hp, hrl] at h
        rcases List.mem_cons.mp h with rfl | h2
        · exact processLine_emit_kind hp
        · exact ih a (by rw [hrl]; exact h2)

theorem runFiles_mem_kinds {cutoff : String} :
    ∀ (ps : List (String × List String)) (a : Action),
      a ∈ (runFiles cutoff ps).1 → a.action ∈ kinds := by
  intro ps
  induction ps with
  | nil => intro a h; simp [runFiles] at h
  | cons p rest ih =>
    intro a h
    cases hrl : runLines cutoff p.2.reverse with
    | mk as o =>
      cases o with
      | fin =>
        cases hrf : runFiles cutoff rest with
        | mk bs o2 =>
          rw [runFiles, hrl, hrf] at h
          rcases List.mem_append.mp h with h2 | h2
          · exact runLines_mem_kinds p.2.reverse a (by rw [hrl]; exact h2)
          · exact ih a (by rw [hrf]; exact h2)
      | stop =>
        rw [runFiles, hrl] at h
        exact runLines_mem_kinds p.2.reverse a (by rw [hrl]; exact h)
      | errValue =>
        rw [runFiles, hrl] at h
        exact runLines_mem_kinds p.2.reverse a (by rw [hrl]; exact h)
      | errDup =>
        rw [runFiles, hrl] at h
        exact runLines_mem_kinds p.2.reverse a (by rw [hrl]; exact h)

/-- C9: only actions of the four kinds install, upgrade, remove, purge are
ever materialized by the merge. First conjunct: an in-window line that
splits into the four-field shape but whose kind lies outside the four
recognized values is silently skipped (not an error). Second conjunct:
every action yielded by `get_actions` has one of the four kinds. -/
theorem c9_only_four_kinds (cutoff : String) :
    (∀ l d t act rest, split4 (pyStrip l) = some (d, t, act, rest) →
      strLt (d ++ " " ++ t) cutoff = false → act ∉ kinds →
      processLine cutoff l = .skip)
    ∧ ∀ (files : List (List String)) (a : Action),
        a ∈ (get_actions cutoff files).1 → a.action ∈ kinds := by
  constructor
  · intro l d t act rest hs hlt hnk
    unfold processLine
    rw [hs]
    dsimp only
    simp [hlt, hnk]
  · intro files a h
    unfold get_actions at h
    rcases hc : collectFirstsAux [] files with e | acc <;> rw [hc] at h
    · simp at h
    · exact runFiles_mem_kinds acc.reverse a h

theorem c9_witness :
    processLine "2000-01-01 00:00:00"
      "2017-01-01 00:00:00 status pkg:arch installed" = .skip
    ∧ Action.action ⟨"upgrade", "pkg", "arch", "1", "2"⟩ ∈ kinds :=
  ⟨(c9_only_four_kinds "2000-01-01 00:00:00").1
      "2017-01-01 00:00:00 status pkg:arch installed" "2017-01-01" "00:00:00"
      "status" "pkg:arch installed" (by decide) (by decide) (by decide),
    (c9_only_four_kinds "2000-01-01 00:00:00").2
      [["2017-01-01 00:00:00 upgrade pkg:arch 1 2"]] _ (by decide)⟩

/-! ### C7 — strict mode blocks, permissive mode keeps only survivors -/

theorem fold_delete_eq_filter :
    ∀ (F : List Action) (snap : List ((String × String) × Action)),
      F.foldl (fun d a => dictDelete d (keyOf a)) snap =
        snap.filter fun e => F.all fun a => decide (e.1 ≠ keyOf a) := by
  intro F
  induction F with
  | nil =>
    intro snap
    simp [List.filter_true]
  | cons a F ih =>
    intro snap
    rw [List.foldl_cons, ih (dictDelete snap (keyOf a)), dictDelete,
      List.filter_filter]
    apply List.filter_congr
    intro e _
    simp only [List.all_cons]
    rw [Bool.and_comm]

theorem mem_failedList {snap : List ((String × String) × Action)}
    {fails : String → String → String → Bool} {a : Action} :
    a ∈ failedList snap fails ↔
      ∃ e ∈ snap, e.2 = a ∧ unitFails fails a = true := by
  unfold failedList
  rw [List.mem_filterMap]
  constructor
  · rintro ⟨e, he, hopt⟩
    by_cases hu : unitFails fails e.2
    · rw [if_pos hu] at hopt
      rcases Option.some.injEq .. ▸ hopt with rfl
      exact ⟨e, he, rfl, hu⟩
    · rw [if_neg hu] at hopt
      exact absurd hopt (by simp)
  · rintro ⟨e, he, rfl, hu⟩
    exact ⟨e, he, by rw [if_pos hu]⟩

theorem droppedSnap_eq_filter {snap : List ((String × String) × Action)}
    (fails : String → String → String → Bool)
    (hk : ∀ e ∈ snap, e.1 = keyOf e.2)
    (hnd : (snap.map Prod.fst).Nodup) :
    droppedSnap snap fails = snap.filter fun e => !(unitFails fails e.2) := by
  rw [droppedSnap, fold_delete_eq_filter]
  apply List.filter_congr
  intro e he
  cases hu : unitFails fails e.2 with
  | true =>
    simp only [Bool.not_true]
    cases hall : (failedList snap fails).all fun a => decide (e.1 ≠ keyOf a) with
    | false => rfl
    | true =>
      exfalso
      have hmem : e.2 ∈ failedList snap fails :=
        mem_failedList.mpr ⟨e, he, rfl, hu⟩
      have := List.all_eq_true.mp hall e.2 hmem
      simp [hk e he] at this
  | false =>
    simp only [Bool.not_false]
    rw [List.all_eq_true]
    intro a ha
    rcases mem_failedList.mp ha with ⟨e2, he2, h2a, hu2⟩
    simp only [decide_eq_true_eq]
    intro hcon
    have hkeys : e2.1 = e.1 := by
      rw [hk e2 he2, h2a, ← hcon]
    have : e2 = e := List.inj_on_of_nodup_map hnd he2 he hkeys
    rw [← h2a, this, hu] at hu2
    exact absurd hu2 (by simp)

/-- C7: in strict mode (no force flag), if at least one download unit failed,
the run terminates as `blocked` with a report naming exactly the failed
`(package, arch, fromversion)` triples and the sink is never invoked; in
permissive mode with the same inputs, the failed units are removed from the
snapshot and the sink invocation (`handedOff`) is built from only the
surviving units (the entries that are not failing download units). -/
theorem c7_strict_blocks_permissive_survivors (timestamp : String)
    (fails : String → String → String → Bool) (actions : List Action)
    (hfail : failedList (snapshot actions) fails ≠ []) :
    mainRun timestamp false fails actions =
      .blocked ((failedList (snapshot actions) fails).map
        fun a => (a.package, a.arch, a.fromversion))
    ∧ mainRun timestamp true fails actions =
      (if ((snapshot actions).filter fun e => !(unitFails fails e.2)) = [] then
        .nothingToRevert "No package operations to revert"
      else
        .handedOff
          (installsOf timestamp
            ((snapshot actions).filter fun e => !(unitFails fails e.2)))
          (uninstallsOf
            ((snapshot actions).filter fun e => !(unitFails fails e.2)))) := by
  have hsnap : snapshot actions ≠ [] := by
    intro hcon
    apply hfail
    unfold failedList
    rw [hcon]
    rfl
  obtain ⟨hk, hnd⟩ := snapshot_inv actions
  have hdrop := droppedSnap_eq_filter fails hk hnd
  constructor
  · rw [mainRun, if_neg hsnap, if_pos ⟨hfail, rfl⟩]
  · rw [mainRun, if_neg hsnap, if_neg (by simp), hdrop]

theorem c7_witness :
    mainRun "timestamp" false (fun _ _ v => decide (v = "failed"))
      [⟨"upgrade", "p1", "a1", "failed", "2"⟩,
       ⟨"upgrade", "p2", "a1", "ok", "2"⟩] =
      .blocked [("p1", "a1", "failed")]
    ∧ mainRun "timestamp" true (fun _ _ v => decide (v = "failed"))
      [⟨"upgrade", "p1", "a1", "failed", "2"⟩,
       ⟨"upgrade", "p2", "a1", "ok", "2"⟩] =
      .handedOff ["/tmp/apt-rollback-timestamp/p2_ok_a1.deb"] [] :=
  ⟨((c7_strict_blocks_permissive_survivors "timestamp"
      (fun _ _ v => decide (v = "failed"))
      [⟨"upgrade", "p1", "a1", "failed", "2"⟩,
       ⟨"upgrade", "p2", "a1", "ok", "2"⟩] (by decide)).1).trans (by decide),
    ((c7_strict_blocks_permissive_survivors "timestamp"
      (fun _ _ v => decide (v = "failed"))
      [⟨"upgrade", "p1", "a1", "failed", "2"⟩,
       ⟨"upgrade", "p2", "a1", "ok", "2"⟩] (by decide)).2).trans (by decide)⟩

/-! ### Merge structure lemmas for C2 and C5 -/

/-- Decidable equality for the result type of `peekTs`, so concrete witness
hypotheses evaluate with `decide`. -/
instance : DecidableEq (Except Out (Option String)) := fun x y =>
  match x, y with
  | .error a, .error b =>
    if h : a = b then .isTrue (by rw [h]) else .isFalse (fun hc => h (by cases hc; rfl))
  | .ok a, .ok b =>
    if h : a = b then .isTrue (by rw [h]) else .isFalse (fun hc => h (by cases hc; rfl))
  | .error _, .ok _ => .isFalse fun hc => nomatch hc
  | .ok _, .error _ => .isFalse fun hc => nomatch hc

theorem runLines_append (cutoff : String) :
    ∀ xs ys, runLines cutoff (xs ++ ys) =
      (match runLines cutoff xs with
       | (as, Out.fin) =>
         (as ++ (runLines cutoff ys).1, (runLines cutoff ys).2)
       | r => r) := by
  intro xs
  induction xs with
  | nil =>
    intro ys
    simp [runLines]
  | cons l xs ih =>
    intro ys
    cases hp : processLine cutoff l with
    | err => rw [List.cons_append, runLines, hp, runLines, hp]
    | stop => rw [List.cons_append, runLines, hp, runLines, hp]
    | skip => rw [List.cons_append, runLines, hp, runLines, hp]; exact ih ys
    | emit a =>
      rw [List.cons_append, runLines, hp, ih ys, runLines, hp]
      cases hx : runLines cutoff xs with
      | mk as o =>
        cases o <;> simp

theorem runFiles_eq_runLines (cutoff : String) :
    ∀ ps : List (String × List String),
      runFiles cutoff ps =
        runLines cutoff ((ps.map fun p => p.2.reverse).flatten) := by
  intro ps
  induction ps with
  | nil => rfl
  | cons p rest ih =>
    rw [List.map_cons, List.flatten_cons, runLines_append, runFiles, ih]
    cases hx : runLines cutoff p.2.reverse with
    | mk as o =>
      cases o <;> rfl

theorem runLines_ne_errDup (cutoff : String) :
    ∀ ls, (runLines cutoff ls).2 ≠ Out.errDup := by
  intro ls
  induction ls with
  | nil => simp [runLines]
  | cons l ls ih =>
    cases hp : processLine cutoff l with
    | err => rw [runLines, hp]; simp
    | stop => rw [runLines, hp]; simp
    | skip => rw [runLines, hp]; exact ih
    | emit a =>
      rw [runLines, hp]
      cases hx : runLines cutoff ls with
      | mk as o => rw [hx] at ih; exact ih

theorem insortAsc_perm (p : String × List String) :
    ∀ l, List.Perm (insortAsc p l) (p :: l) := by
  intro l
  induction l with
  | nil => exact List.Perm.refl _
  | cons q qs ih =>
    rw [insortAsc]
    split_ifs
    · exact (ih.cons q).trans (List.Perm.swap p q qs)
    · exact List.Perm.refl _

theorem insortAsc_sorted (p : String × List String) :
    ∀ l, l.Pairwise (fun x y => x.1 < y.1) → p.1 ∉ l.map Prod.fst →
      (insortAsc p l).Pairwise fun x y => x.1 < y.1 := by
  intro l
  induction l with
  | nil => intro _ _; simp [insortAsc]
  | cons q qs ih =>
    intro hs hnm
    rcases List.pairwise_cons.mp hs with ⟨hq, hqs⟩
    have hpq : p.1 ≠ q.1 := by
      intro hc; exact hnm (by simp [hc])
    have hnm' : p.1 ∉ qs.map Prod.fst := by
      intro hc; exact hnm (by simp [hc])
    rw [insortAsc]
    split_ifs with hlt
    · rw [List.pairwise_cons]
      constructor
      · intro x hx
        have hx3 : x ∈ p :: qs := (insortAsc_perm p qs).mem_iff.mp hx
        rcases List.mem_cons.mp hx3 with rfl | hx2
        · exact (strLt_iff _ _).mp hlt
        · exact hq x hx2
      · exact ih hqs hnm'
    · have hple : p.1 < q.1 :=
        lt_of_le_of_ne ((strLt_false_iff _ _).mp
          (Bool.not_eq_true _ ▸ hlt : strLt q.1 p.1 = false)) hpq
      rw [List.pairwise_cons]
      constructor
      · intro x hx
        rcases List.mem_cons.mp hx with rfl | hx2
        · exact hple
        · exact lt_trans hple (hq x hx2)
      · exact hs


theorem runFiles_ne_errDup (cutoff : String) :
    ∀ ps, (runFiles cutoff ps).2 ≠ Out.errDup := by
  intro ps
  induction ps with
  | nil => simp [runFiles]
  | cons p rest ih =>
    rw [runFiles_eq_runLines] at ih ⊢
    rw [List.map_cons, List.flatten_cons, runLines_append]
    cases hx : runLines cutoff p.2.reverse with
    | mk as o =>
      cases o with
      | fin => exact ih
      | stop => simp
      | errValue => simp
      | errDup =>
        have := runLines_ne_errDup cutoff p.2.reverse
        rw [hx] at this
        simp at this

theorem collectFirsts_ok :
    ∀ (fs : List (List String)) (acc : List (String × List String)),
      (∀ f ∈ fs, peekTs f = .ok (some (firstTsD f))) →
      ((acc.map Prod.fst ++ fs.map firstTsD).Nodup) →
      acc.Pairwise (fun x y => x.1 < y.1) →
      ∃ L, collectFirstsAux acc fs = .ok L
        ∧ List.Perm L (acc ++ fs.map fun f => (firstTsD f, f))
        ∧ L.Pairwise fun x y => x.1 < y.1 := by
  intro fs
  induction fs with
  | nil =>
    intro acc _ _ hsort
    exact ⟨acc, rfl, by simp, hsort⟩
  | cons f fs ih =>
    intro acc hp hnd hsort
    have hpf : peekTs f = .ok (some (firstTsD f)) := hp f (List.mem_cons_self f fs)
    have hts : firstTsD f ∉ acc.map Prod.fst := by
      intro hc
      rw [List.nodup_append] at hnd
      exact hnd.2.2 hc (by simp)
    rw [collectFirstsAux, hpf]
    dsimp only
    rw [if_neg hts]
    have hpk : List.Perm ((insortAsc (firstTsD f, f) acc).map Prod.fst)
        (firstTsD f :: acc.map Prod.fst) :=
      (insortAsc_perm (firstTsD f, f) acc).map Prod.fst
    have h1 : List.Perm
        ((insortAsc (firstTsD f, f) acc).map Prod.fst ++ fs.map firstTsD)
        (acc.map Prod.fst ++ firstTsD f :: fs.map firstTsD) := by
      refine (hpk.append_right _).trans ?_
      rw [List.cons_append]
      exact List.perm_middle.symm
    have hnd' : ((insortAsc (firstTsD f, f) acc).map Prod.fst ++
        fs.map firstTsD).Nodup :=
      h1.nodup_iff.mpr (by simpa using hnd)
    obtain ⟨L, hok, hLp, hLs⟩ := ih (insortAsc (firstTsD f, f) acc)
      (fun g hg => hp g (List.mem_cons_of_mem f hg)) hnd'
      (insortAsc_sorted (firstTsD f, f) acc hsort hts)
    refine ⟨L, hok, ?_, hLs⟩
    refine hLp.trans ?_
    refine ((insortAsc_perm (firstTsD f, f) acc).append_right _).trans ?_
    rw [List.map_cons, List.cons_append]
    exact List.perm_middle.symm


/-! ### C2 — the merge is the sorted-descending concatenation, truncated -/

/-- C2: for log files with parseable first lines and strictly distinct
first-line timestamps, the merged action stream of `get_actions` equals the
per-line scan (`runLines`, which yields recognized in-window actions, skips
other kinds and ends the whole stream at the first record older than the
cutoff) of the concatenation, in strictly descending order of first-line
timestamp (`ordered`), of each file's lines in reverse order; in particular
a record older than the cutoff ends the entire multi-file stream and no
older file is ever visited. -/
theorem c2_merge_is_sorted_concat_truncated (cutoff : String)
    (files ordered : List (List String))
    (hp : ∀ f ∈ files, peekTs f = .ok (some (firstTsD f)))
    (hnd : (files.map firstTsD).Nodup)
    (hperm : List.Perm ordered files)
    (hsort : ordered.Pairwise fun f g => strLt (firstTsD g) (firstTsD f) = true) :
    get_actions cutoff files =
      runLines cutoff ((ordered.map List.reverse).flatten) := by
  obtain ⟨L, hok, hLp, hLs⟩ :=
    collectFirsts_ok files [] hp (by simpa using hnd) (by simp)
  rw [get_actions, hok]
  dsimp only
  have hrev_sorted : L.reverse.Pairwise
      fun x y : String × List String => y.1 < x.1 := by
    rw [List.pairwise_reverse]
    exact hLs
  have hordP_sorted : (ordered.map fun f => (firstTsD f, f)).Pairwise
      fun x y : String × List String => y.1 < x.1 := by
    rw [List.pairwise_map]
    exact hsort.imp fun h => (strLt_iff _ _).mp h
  have hperm2 : List.Perm L.reverse (ordered.map fun f => (firstTsD f, f)) :=
    (L.reverse_perm.trans (hLp.trans (by simp))).trans
      (hperm.map fun f => (firstTsD f, f)).symm
  haveI : IsAntisymm (String × List String) (fun x y => y.1 < x.1) :=
    ⟨fun _ _ h1 h2 => absurd h1 (asymm h2)⟩
  have heq : L.reverse = ordered.map fun f => (firstTsD f, f) :=
    List.eq_of_perm_of_sorted hperm2 hrev_sorted hordP_sorted
  rw [heq, runFiles_eq_runLines, List.map_map]
  rfl

theorem c2_witness :
    get_actions "2000-01-01 00:00:00"
      [["2016-01-01 00:00:00 upgrade pkg:arch 1 2"],
       ["2017-01-01 00:00:00 upgrade pkg:arch 2 3"]] =
      runLines "2000-01-01 00:00:00"
        (([["2017-01-01 00:00:00 upgrade pkg:arch 2 3"],
           ["2016-01-01 00:00:00 upgrade pkg:arch 1 2"]].map
          List.reverse).flatten) :=
  c2_merge_is_sorted_concat_truncated "2000-01-01 00:00:00"
    [["2016-01-01 00:00:00 upgrade pkg:arch 1 2"],
     ["2017-01-01 00:00:00 upgrade pkg:arch 2 3"]]
    [["2017-01-01 00:00:00 upgrade pkg:arch 2 3"],
     ["2016-01-01 00:00:00 upgrade pkg:arch 1 2"]]
    (by decide) (by decide) (by decide) (by decide)

/-! ### C5 — duplicate first-line timestamps are a fatal assertion -/

/-- C5: two log files whose first lines carry an identical timestamp make
`get_actions` raise the rotation-ambiguity `AssertionError` before yielding
any record (first conjunct: the yielded list is empty and the outcome is
`errDup`); with parseable first lines and strictly distinct first-line
timestamps this error is unreachable (second conjunct). -/
theorem c5_duplicate_first_timestamp_fatal (cutoff t : String)
    (f1 f2 : List String) (rest files : List (List String)) :
    (peekTs f1 = .ok (some t) → peekTs f2 = .ok (some t) →
      get_actions cutoff (f1 :: f2 :: rest) = ([], .errDup))
    ∧ ((∀ f ∈ files, peekTs f = .ok (some (firstTsD f))) →
      (files.map firstTsD).Nodup →
      (get_actions cutoff files).2 ≠ .errDup) := by
  constructor
  · intro h1 h2
    rw [get_actions, collectFirstsAux, h1]
    dsimp only
    rw [if_neg (by simp)]
    rw [show insortAsc (t, f1) [] = [(t, f1)] from rfl,
      collectFirstsAux, h2]
    dsimp only
    rw [if_pos (by simp)]
  · intro hp hnd
    obtain ⟨L, hok, _, _⟩ :=
      collectFirsts_ok files [] hp (by simpa using hnd) (by simp)
    rw [get_actions, hok]
    exact runFiles_ne_errDup cutoff L.reverse

theorem c5_witness :
    get_actions "2000-01-01 00:00:00"
      [["2017-01-01 00:00:00 upgrade a:b 1 2"],
       ["2017-01-01 00:00:00 upgrade c:d 1 2"]] = ([], .errDup)
    ∧ (get_actions "2000-01-01 00:00:00"
      [["2016-01-01 00:00:00 upgrade a:b 1 2"],
       ["2017-01-01 00:00:00 upgrade a:b 1 2"]]).2 ≠ .errDup :=
  ⟨(c5_duplicate_first_timestamp_fatal "2000-01-01 00:00:00"
      "2017-01-01 00:00:00" ["2017-01-01 00:00:00 upgrade a:b 1 2"]
      ["2017-01-01 00:00:00 upgrade c:d 1 2"] [] []).1 (by decide) (by decide),
    (c5_duplicate_first_timestamp_fatal "2000-01-01 00:00:00"
      "2017-01-01 00:00:00" [] [] []
      [["2016-01-01 00:00:00 upgrade a:b 1 2"],
       ["2017-01-01 00:00:00 upgrade a:b 1 2"]]).2 (by decide) (by decide)⟩

end AptRollback
